import Mathlib

/-
  Verification development for the lumin static-site builder.

  Shallow embedding of src/store.rs, src/processors.rs and the rebuild
  lifecycle of src/main.rs.  Filesystem paths are modelled as their
  component lists; the out-of-scope collaborators (liquid templating,
  markdown rendering, syntax highlighting, raw file reads) are abstract
  function parameters, as the spec treats them (narrow external
  interfaces).  Machine effects (the rayon parallel dispatch, the
  Arc/Mutex store) are modelled by explicit state passing: dispatch is a
  fold over an arbitrary permutation of the walked paths, and the shared
  Arc-backed store is a reference into an explicit heap.
-/

namespace Lumin

/-- A filesystem path, as its list of components (std::path::Path). -/
abbrev Path := List String

/-- Raw output bytes (Vec<u8>). -/
abbrev Bytes := List UInt8

/-- Model of std Path::extension on one file-name component: the part of
the name after the last dot, none when there is no dot or the name is a
dot-file such as ".bashrc" (empty stem). -/
def extName (name : String) : Option String :=
  let rev := name.data.reverse
  if rev.contains '.' then
    let stem := (rev.dropWhile (fun c => c ≠ '.')).drop 1
    if stem.isEmpty then none
    else some (String.mk ((rev.takeWhile (fun c => c ≠ '.')).reverse))
  else none

/-- Extension of a path = extension of its final component (file name). -/
def pathExt (p : Path) : Option String :=
  match p.getLast? with
  | some name => extName name
  | none => none

/-- The file name without its extension (std file_stem, for names that
have an extension). -/
def stemName (name : String) : String :=
  String.mk (((name.data.reverse.dropWhile (fun c => c ≠ '.')).drop 1).reverse)

/-- Model of std Path::set_extension on one file-name component. -/
def setExtName (name e : String) : String :=
  match extName name with
  | none => name ++ "." ++ e
  | some _ => stemName name ++ "." ++ e

/-- set_extension on a path: rewrite the final component. -/
def pathSetExt (p : Path) (e : String) : Path :=
  if p.isEmpty then p else p.dropLast ++ [setExtName (p.getLastD "") e]

/-- file_name().to_string_lossy() of a path. -/
def fileName (p : Path) : String := p.getLastD ""

/-- src/store.rs URLPath: how a Resource names its output URL. -/
inductive URLPath
  | UseOriginalPath
  | Filepath (path : Path)
  | Absolute (s : String)
deriving DecidableEq

/-- src/store.rs Resource. -/
structure Resource where
  original_path : Path
  url_path : URLPath
  contents : Bytes
deriving DecidableEq

/-- Model of std Path::strip_prefix on component lists: removes `base`
from the front of the path, error when `base` is not a component prefix
(Display of StripPrefixError). -/
def stripBase : Path → Path → Except String Path
  | p, [] => .ok p
  | [], _ :: _ => .error "prefix not found"
  | a :: p, b :: base => if a = b then stripBase p base else .error "prefix not found"

/-- src/store.rs Resource::url: Absolute locators are returned verbatim,
the other two strip the build root off the relevant path and join the
remaining components with "/" (to_string_lossy of a relative path). -/
def Resource.url (r : Resource) (base : Path) : Except String String :=
  match r.url_path with
  | .Absolute s => .ok s
  | .UseOriginalPath =>
    match stripBase r.original_path base with
    | .error e => .error e
    | .ok rest => .ok (String.intercalate "/" rest)
  | .Filepath p =>
    match stripBase p base with
    | .error e => .error e
    | .ok rest => .ok (String.intercalate "/" rest)

/-- The contents of one generation of the store: the HashMap<String, Resource>. -/
abbrev StoreMap := List (String × Resource)

/-- HashMap::get (the most recent insertion for a key wins). -/
def mapGet (m : StoreMap) (k : String) : Option Resource :=
  (m.find? (fun kv => kv.1 == k)).map (fun kv => kv.2)

/-- HashMap::insert: the new binding replaces any previous binding of the key. -/
def mapInsert (m : StoreMap) (k : String) (v : Resource) : StoreMap :=
  (k, v) :: m.filter (fun kv => kv.1 != k)

/-- src/store.rs Store::put: empty contents are a sentinel and are never
inserted; otherwise insert into the map. -/
def storePut (m : StoreMap) (url : String) (r : Resource) : StoreMap :=
  if r.contents.isEmpty then m else mapInsert m url r

/-- The heap of Arc<Mutex<HashMap<..>>> allocations, indexed by allocation id. -/
abbrev Heap := Nat → StoreMap

/-- src/store.rs Store: a handle (Arc) onto one heap allocation. -/
structure Store where
  ref : Nat

/-- derive(Clone) on Store clones the Arc: the clone is the same handle
onto the same underlying map. -/
def Store.clone (s : Store) : Store := s

/-- Overwrite one heap allocation. -/
def heapWrite (h : Heap) (n : Nat) (m : StoreMap) : Heap :=
  fun k => if k = n then m else h k

/-- Store::put observed through the heap: mutates the allocation the
handle points at. -/
def Store.hput (h : Heap) (s : Store) (url : String) (r : Resource) : Heap :=
  heapWrite h s.ref (storePut (h s.ref) url r)

/-- Store::get observed through the heap. -/
def Store.hget (h : Heap) (s : Store) (url : String) : Option Resource :=
  mapGet (h s.ref) url

/-- src/store.rs Store::replace: swap the backing maps of the two handles. -/
def Store.hreplace (h : Heap) (s other : Store) : Heap :=
  fun k => if k = s.ref then h other.ref else if k = other.ref then h s.ref else h k

/-- src/store.rs EXTENSIONS: the walker's recognized-extension set. -/
def EXTENSIONS : List String :=
  ["css", "html", "jpg", "jpeg", "woff2", "liquid", "md", "markdown", "png", "svg", "webp"]

/-- The walker's per-file filter (src/store.rs walk lines 113-116): keep
a file exactly when its extension is recognized. -/
def walkKeep (p : Path) : Bool :=
  match pathExt p with
  | some e => EXTENSIONS.contains e
  | none => false

/-- The ResourceProcessor trait (src/lib.rs).  A processor's interior
mutable state (e.g. the PostsProcessor's accumulated post list behind an
Arc<Mutex<..>>) is made explicit: process and flush thread a state of
type σ. -/
structure Processor (σ : Type) where
  matchesFn : Path → Bool
  process : Path → σ → Except String (Resource × σ)
  flush : σ → Except String (List Resource × σ)

/-- Instrumentation events: one procCall per process() invocation (with
the index of the processor invoked), one flushCall per flush()
invocation. -/
inductive BuildEvent
  | procCall (i : Nat) (p : Path)
  | flushCall (i : Nat)
deriving DecidableEq

/-- True exactly on process() events. -/
def BuildEvent.isProc : BuildEvent → Bool
  | .procCall _ _ => true
  | .flushCall _ => false

/-- One path's trip through the dispatch loop (src/store.rs lines
143-158): try the processors in order; the first whose matches returns
true has process called, the resource's URL resolved and the result put
into the build store, and the loop returns; a path matching no processor
is skipped.  `i` is the index of the first processor still to try. -/
def dispatchPathTr {σ : Type} (base p : Path) (store : StoreMap) (s : σ) :
    List (Processor σ) → Nat → (Except String (StoreMap × σ)) × List BuildEvent
  | [], _ => (.ok (store, s), [])
  | pr :: rest, i =>
    if pr.matchesFn p then
      match pr.process p s with
      | .error e => (.error e, [.procCall i p])
      | .ok (res, s') =>
        match res.url base with
        | .error e => (.error e, [.procCall i p])
        | .ok url => (.ok (storePut store url res, s'), [.procCall i p])
    else
      dispatchPathTr base p store s rest (i + 1)

/-- The Dispatching phase (the par_iter().try_for_each of
find_and_process): every walked path goes through the dispatch loop; the
first failure aborts with that error.  Parallel interleavings are
captured by running this fold over an arbitrary permutation of the
walked paths. -/
def dispatchAllTr {σ : Type} (base : Path) (procs : List (Processor σ)) :
    List Path → StoreMap → σ → (Except String (StoreMap × σ)) × List BuildEvent
  | [], store, s => (.ok (store, s), [])
  | p :: ps, store, s =>
    match dispatchPathTr base p store s procs 0 with
    | (.error e, tr) => (.error e, tr)
    | (.ok (store', s'), tr) =>
      let (r, tr') := dispatchAllTr base procs ps store' s'
      (r, tr ++ tr')

/-- The inner loop of the Flushing phase: resolve and put every resource
a flush returned (src/store.rs lines 175-178). -/
def putAll (base : Path) (store : StoreMap) : List Resource → Except String StoreMap
  | [] => .ok store
  | r :: rest =>
    match r.url base with
    | .error e => .error e
    | .ok url => putAll base (storePut store url r) rest

/-- The Flushing phase (src/store.rs lines 163-179): sequentially, in
registration order, call each processor's flush exactly once and put its
resources; any failure aborts with that error. -/
def flushAllTr {σ : Type} (base : Path) :
    List (Processor σ) → Nat → StoreMap → σ → (Except String (StoreMap × σ)) × List BuildEvent
  | [], _, store, s => (.ok (store, s), [])
  | pr :: rest, i, store, s =>
    match pr.flush s with
    | .error e => (.error e, [.flushCall i])
    | .ok (resources, s') =>
      match putAll base store resources with
      | .error e => (.error e, [.flushCall i])
      | .ok store' =>
        let (r, tr) := flushAllTr base rest (i + 1) store' s'
        (r, .flushCall i :: tr)

/-- src/store.rs find_and_process: walk (its outcome is the walkRes
parameter, the walk itself being filesystem I/O), then the parallel
Dispatching phase into a fresh empty store, then the sequential Flushing
phase.  Returns the built store map and the processors' final state, or
the first error; also returns the instrumentation trace. -/
def findAndProcessTr {σ : Type} (base : Path) (procs : List (Processor σ))
    (walkRes : Except String (List Path)) (s : σ) :
    (Except String (StoreMap × σ)) × List BuildEvent :=
  match walkRes with
  | .error e => (.error e, [])
  | .ok paths =>
    match dispatchAllTr base procs paths [] s with
    | (.error e, tr) => (.error e, tr)
    | (.ok (store, s'), tr) =>
      let (r, tr') := flushAllTr base procs 0 store s'
      (r, tr ++ tr')

/-- src/processors.rs STATIC_EXTENSIONS. -/
def STATIC_EXTENSIONS : List String := ["css", "html", "jpg", "jpeg", "woff2"]

/-- StaticProcessor::matches: extension in STATIC_EXTENSIONS. -/
def staticMatches (p : Path) : Bool :=
  ((pathExt p).map (fun e => STATIC_EXTENSIONS.contains e)).getD false

/-- StaticProcessor::process: read the file verbatim; the URL is the
original path (Resource Default url_path).  `readFile` abstracts
std::fs::read. -/
def staticProcess (readFile : Path → Except String Bytes) (p : Path) :
    Except String Resource :=
  match readFile p with
  | .error e => .error e
  | .ok buf => .ok { original_path := p, url_path := .UseOriginalPath, contents := buf }

/-- LiquidProcessor configuration: its partials directory and the
combined parse_file/render collaborator (templating is out of scope). -/
structure LiquidCfg where
  partsDir : Path
  render : Path → Except String Bytes

/-- LiquidProcessor::matches: a .liquid file not under the partials
directory. -/
def liquidMatches (cfg : LiquidCfg) (p : Path) : Bool :=
  ((pathExt p).map (fun e => e == "liquid")).getD false && !(List.isPrefixOf cfg.partsDir p)

/-- LiquidProcessor::process: render the template; the output URL is the
source path with its extension rewritten to .html. -/
def liquidProcess (cfg : LiquidCfg) (p : Path) : Except String Resource :=
  match cfg.render p with
  | .error e => .error e
  | .ok buf =>
    .ok { original_path := p, url_path := .Filepath (pathSetExt p "html"), contents := buf }

/-- src/processors.rs PostMetadata.  A toml Datetime is carried as its
to_string rendering (the only way the code consumes it). -/
structure PostMetadata where
  title : String
  description : String
  published : String
deriving DecidableEq

/-- src/processors.rs PostItem: one accumulated post, as recorded for
the paginated listing. -/
structure PostItem where
  filename : String
  title : String
  description : String
  published : String
deriving DecidableEq

/-- PostsProcessor configuration: its paths plus the out-of-scope
collaborators (file reads, markdown, toml parsing, the two liquid
templates, highlighting). -/
structure PostsCfg where
  postsDir : Path
  postsTemplatePath : Path
  postListTemplatePath : Path
  readToString : Path → Except String String
  mdToHtml : String → String
  parseMeta : String → Except String PostMetadata
  renderPost : String → PostMetadata → Except String String
  highlightCode : String → Except String String
  renderList : List PostItem → String → String → Except String Bytes

/-- PostsProcessor::get_metadata: read the sibling .toml and parse it. -/
def getMetadata (cfg : PostsCfg) (p : Path) : Except String PostMetadata :=
  match cfg.readToString (pathSetExt p "toml") with
  | .error e => .error e
  | .ok buf => cfg.parseMeta buf

/-- PostsProcessor::matches: the two template paths themselves, or a
.md/.markdown file under the posts directory. -/
def postsMatches (cfg : PostsCfg) (p : Path) : Bool :=
  p == cfg.postsTemplatePath || p == cfg.postListTemplatePath ||
    (List.isPrefixOf cfg.postsDir p &&
      ((pathExt p).map (fun e => e == "md" || e == "markdown")).getD false)

/-- PostsProcessor::process.  For the template paths: an empty-contents
sentinel Resource, with no state change.  For a post: read, render
markdown, read metadata, render the post template, highlight, append a
PostItem to the accumulated list, and return the page with its URL being
the source path rewritten to .html. -/
def postsProcess (cfg : PostsCfg) (p : Path) (posts : List PostItem) :
    Except String (Resource × List PostItem) :=
  if p == cfg.postsTemplatePath || p == cfg.postListTemplatePath then
    .ok ({ original_path := p, url_path := .UseOriginalPath, contents := [] }, posts)
  else
    match cfg.readToString p with
    | .error e => .error e
    | .ok buf =>
      let html := cfg.mdToHtml buf
      match getMetadata cfg p with
      | .error e => .error e
      | .ok meta =>
        match cfg.renderPost html meta with
        | .error e => .error e
        | .ok rendered =>
          match cfg.highlightCode rendered with
          | .error e => .error e
          | .ok contents =>
            let newPath := pathSetExt p "html"
            .ok ({ original_path := p,
                   url_path := .Filepath newPath,
                   contents := contents.toUTF8.data.toList },
                 posts ++ [{ filename := fileName newPath, title := meta.title,
                             description := meta.description,
                             published := meta.published }])

/-- Lexicographic at-most on character lists by code point: the model
of Rust String::cmp (byte-wise lexicographic order; UTF-8 byte order
agrees with code-point order). -/
def charListLe : List Char → List Char → Bool
  | [], _ => true
  | _ :: _, [] => false
  | a :: as, b :: bs =>
    if a.toNat < b.toNat then true
    else if b.toNat < a.toNat then false
    else charListLe as bs

/-- The flush ordering: a appears before b when b's published string is
at most a's (descending by published, the comparator
a.published.cmp(&b.published).reverse()). -/
def postLe (a b : PostItem) : Prop :=
  charListLe b.published.data a.published.data = true

instance : DecidableRel postLe :=
  fun a b =>
    inferInstanceAs (Decidable (charListLe b.published.data a.published.data = true))

theorem charListLe_total : ∀ x y : List Char, charListLe x y = true ∨ charListLe y x = true := by
  intro x
  induction x with
  | nil => intro y; exact Or.inl rfl
  | cons a as ih =>
    intro y
    cases y with
    | nil => exact Or.inr rfl
    | cons b bs =>
      rcases Nat.lt_trichotomy a.toNat b.toNat with hlt | heq | hgt
      · left
        simp [charListLe, hlt]
      · have h1 : ¬ a.toNat < b.toNat := by omega
        have h2 : ¬ b.toNat < a.toNat := by omega
        rcases ih bs with h | h
        · left
          simp [charListLe, h1, h2, h]
        · right
          simp [charListLe, h1, h2, h]
      · right
        simp [charListLe, hgt]

theorem charListLe_trans : ∀ x y z : List Char, charListLe x y = true →
    charListLe y z = true → charListLe x z = true := by
  intro x
  induction x with
  | nil => intro y z _ _; rfl
  | cons a as ih =>
    intro y z hxy hyz
    cases y with
    | nil => simp [charListLe] at hxy
    | cons b bs =>
      cases z with
      | nil => simp [charListLe] at hyz
      | cons c cs =>
        by_cases hab : a.toNat < b.toNat
        · by_cases hbc : b.toNat < c.toNat
          · have hac : a.toNat < c.toNat := by omega
            simp [charListLe, hac]
          · by_cases hcb : c.toNat < b.toNat
            · simp [charListLe, hbc, hcb] at hyz
            · have hac : a.toNat < c.toNat := by omega
              simp [charListLe, hac]
        · by_cases hba : b.toNat < a.toNat
          · simp [charListLe, hab, hba] at hxy
          · simp only [charListLe, if_neg hab, if_neg hba] at hxy
            by_cases hbc : b.toNat < c.toNat
            · have hac : a.toNat < c.toNat := by omega
              simp [charListLe, hac]
            · by_cases hcb : c.toNat < b.toNat
              · simp [charListLe, hbc, hcb] at hyz
              · simp only [charListLe, if_neg hbc, if_neg hcb] at hyz
                have h1 : ¬ a.toNat < c.toNat := by omega
                have h2 : ¬ c.toNat < a.toNat := by omega
                simp only [charListLe, if_neg h1, if_neg h2]
                exact ih bs cs hxy hyz

instance : IsTotal PostItem postLe :=
  ⟨fun a b => charListLe_total b.published.data a.published.data⟩

instance : IsTrans PostItem postLe :=
  ⟨fun a b c hab hbc =>
    charListLe_trans c.published.data b.published.data a.published.data hbc hab⟩

/-- The flush sort: stable sort descending by published. -/
def sortPosts (l : List PostItem) : List PostItem := List.insertionSort postLe l

/-- slice::chunks with explicit fuel (so that it evaluates by kernel
reduction): consecutive chunks, each of at most n elements. -/
def chunksGo (n : Nat) : Nat → List α → List (List α)
  | _, [] => []
  | 0, _ :: _ => []
  | fuel + 1, a :: l => (a :: l.take (n - 1)) :: chunksGo n fuel (l.drop (n - 1))

/-- slice::chunks(n). -/
def chunksOf (n : Nat) (l : List α) : List (List α) := chunksGo n l.length l

/-- PostsProcessor::render_post_list: page 0 is posts/index.html, page i
is posts/posts-i.html; previous/next links as in the source; the page is
an Absolute-URL Resource rendered from the post-list template. -/
def renderPostList (cfg : PostsCfg) (i : Nat) (last : Bool) (posts : List PostItem) :
    Except String Resource :=
  let newPath := if i = 0 then "posts/index.html" else "posts/posts-" ++ toString i ++ ".html"
  let previous := if i = 0 then "" else if i = 1 then "/posts/index.html"
    else "/posts/posts-" ++ toString (i - 1) ++ ".html"
  let next := if last then "" else "posts-" ++ toString (i + 1) ++ ".html"
  match cfg.renderList posts previous next with
  | .error e => .error e
  | .ok buf =>
    .ok { original_path := cfg.postListTemplatePath, url_path := .Absolute newPath,
          contents := buf }

/-- chunks.into_iter().enumerate().map(render_post_list).collect():
render every page, failing on the first render error. -/
def renderAll (cfg : PostsCfg) (len : Nat) : Nat → List (List PostItem) → Except String (List Resource)
  | _, [] => .ok []
  | i, c :: cs =>
    match renderPostList cfg i (i == len - 1) c with
    | .error e => .error e
    | .ok r =>
      match renderAll cfg len (i + 1) cs with
      | .error e => .error e
      | .ok rs => .ok (r :: rs)

/-- PostsProcessor::flush: drain (mem::take) the accumulated posts, sort
them descending by published, chunk into pages of 10, render each page. -/
def postsFlush (cfg : PostsCfg) (posts : List PostItem) :
    Except String (List Resource × List PostItem) :=
  let sorted := sortPosts posts
  let chunks := chunksOf 10 sorted
  match renderAll cfg chunks.length 0 chunks with
  | .error e => .error e
  | .ok rs => .ok (rs, [])

/-- The StaticProcessor as a Processor value (state untouched; default
flush). -/
def staticProcessor (readFile : Path → Except String Bytes) : Processor (List PostItem) where
  matchesFn := staticMatches
  process := fun p s =>
    match staticProcess readFile p with
    | .error e => .error e
    | .ok r => .ok (r, s)
  flush := fun s => .ok ([], s)

/-- The LiquidProcessor as a Processor value (state untouched; default
flush). -/
def liquidProcessor (cfg : LiquidCfg) : Processor (List PostItem) where
  matchesFn := liquidMatches cfg
  process := fun p s =>
    match liquidProcess cfg p with
    | .error e => .error e
    | .ok r => .ok (r, s)
  flush := fun s => .ok ([], s)

/-- The PostsProcessor as a Processor value. -/
def postsProcessor (cfg : PostsCfg) : Processor (List PostItem) where
  matchesFn := postsMatches cfg
  process := postsProcess cfg
  flush := postsFlush cfg

/-- The processor sequence main.rs registers: posts, then liquid, then
static. -/
def mainProcessors (pc : PostsCfg) (lc : LiquidCfg)
    (readFile : Path → Except String Bytes) : List (Processor (List PostItem)) :=
  [postsProcessor pc, liquidProcessor lc, staticProcessor readFile]

/-- What the debouncer callback's rebuild attempt did to the live store. -/
inductive RebuildOutcome
  | replaced
  | panicked (msg : String)
  | loggedError (msg : String)
deriving DecidableEq

/-- True exactly on the logged-and-continued outcome. -/
def isLoggedOutcome : RebuildOutcome → Bool
  | .loggedError _ => true
  | _ => false

/-- src/main.rs rebuild: run a full find_and_process pass; on success
allocate the new store (at freshRef) and Store::replace the live
handle's map with it; on error return the error with the heap untouched. -/
def rebuild {σ : Type} (base : Path) (procs : List (Processor σ))
    (walkRes : Except String (List Path)) (s : σ) (h : Heap) (live : Store)
    (freshRef : Nat) : Except String Heap :=
  match (findAndProcessTr base procs walkRes s).1 with
  | .error e => .error e
  | .ok out => .ok (Store.hreplace (heapWrite h freshRef out.1) live ⟨freshRef⟩)

/-- The debouncer callback of src/main.rs lines 96-112: it calls
rebuild(..).expect("rebuild did not work"), so a rebuild error panics the
watcher callback; the live heap is left untouched in that case. -/
def debounceCallback {σ : Type} (base : Path) (procs : List (Processor σ))
    (walkRes : Except String (List Path)) (s : σ) (h : Heap) (live : Store)
    (freshRef : Nat) : RebuildOutcome × Heap :=
  match rebuild base procs walkRes s h live freshRef with
  | .error _ => (.panicked "rebuild did not work", h)
  | .ok h' => (.replaced, h')

/-! Helper lemmas about path stripping. -/

theorem stripBase_append (base rest : Path) :
    stripBase (base ++ rest) base = .ok rest := by
  induction base with
  | nil => cases rest <;> rfl
  | cons b bs ih => simp [stripBase, ih]

theorem stripBase_not_under (p base : Path) (h : List.isPrefixOf base p = false) :
    stripBase p base = .error "prefix not found" := by
  induction base generalizing p with
  | nil => simp [List.isPrefixOf] at h
  | cons b bs ih =>
    cases p with
    | nil => rfl
    | cons a as =>
      simp only [List.isPrefixOf, Bool.and_eq_false_eq_eq_false_or_eq_false] at h
      rcases h with h | h
      · have hab : ¬ a = b := by
          intro hh
          subst hh
          simp at h
        simp [stripBase, hab]
      · by_cases hab : a = b
        · subst hab
          simp [stripBase, ih as h]
        · simp [stripBase, hab]

/-- C6: URL resolution per locator variant.  UseOriginalPath resolves to
the original path with the build root stripped, Filepath resolves to the
replacement path with the root stripped, Absolute resolves to the stored
string verbatim for every root, and the first two variants return an
error whenever the path in question is not under the root. -/
theorem c6_url_resolution :
    (∀ (root rest : Path) (c : Bytes),
      Resource.url ⟨root ++ rest, .UseOriginalPath, c⟩ root =
        .ok (String.intercalate "/" rest)) ∧
    (∀ (root rest op : Path) (c : Bytes),
      Resource.url ⟨op, .Filepath (root ++ rest), c⟩ root =
        .ok (String.intercalate "/" rest)) ∧
    (∀ (root op : Path) (s : String) (c : Bytes),
      Resource.url ⟨op, .Absolute s, c⟩ root = .ok s) ∧
    (∀ (root p : Path) (c : Bytes), List.isPrefixOf root p = false →
      Resource.url ⟨p, .UseOriginalPath, c⟩ root = .error "prefix not found") ∧
    (∀ (root op p : Path) (c : Bytes), List.isPrefixOf root p = false →
      Resource.url ⟨op, .Filepath p, c⟩ root = .error "prefix not found") := by
  refine ⟨?_, ?_, ?_, ?_, ?_⟩
  · intro root rest c
    simp [Resource.url, stripBase_append]
  · intro root rest op c
    simp [Resource.url, stripBase_append]
  · intro root op s c
    rfl
  · intro root p c h
    simp [Resource.url, stripBase_not_under p root h]
  · intro root op p c h
    simp [Resource.url, stripBase_not_under p root h]

/-- Witness for C6 at the spec's own example inputs: root /site with
/site/a/b.css (UseOriginalPath), /site/post.html (Filepath),
"posts/index.html" (Absolute), and a path not under the root. -/
theorem c6_url_resolution_witness :
    Resource.url ⟨["site", "a", "b.css"], .UseOriginalPath, []⟩ ["site"] = .ok "a/b.css" ∧
    Resource.url ⟨["site", "post.md"], .Filepath ["site", "post.html"], []⟩ ["site"] =
      .ok "post.html" ∧
    Resource.url ⟨["site", "post_list.liquid"], .Absolute "posts/index.html", []⟩ ["site"] =
      .ok "posts/index.html" ∧
    Resource.url ⟨["elsewhere", "a.css"], .UseOriginalPath, []⟩ ["site"] =
      .error "prefix not found" ∧
    Resource.url ⟨["x"], .Filepath ["elsewhere", "a.css"], []⟩ ["site"] =
      .error "prefix not found" :=
  ⟨c6_url_resolution.1 ["site"] ["a", "b.css"] [],
   c6_url_resolution.2.1 ["site"] ["post.html"] ["site", "post.md"] [],
   c6_url_resolution.2.2.1 ["site"] ["site", "post_list.liquid"] "posts/index.html" [],
   c6_url_resolution.2.2.2.1 ["site"] ["elsewhere", "a.css"] [] (by decide),
   c6_url_resolution.2.2.2.2 ["site"] ["x"] ["elsewhere", "a.css"] [] (by decide)⟩

/-- C5: empty-content suppression.  put with an empty-contents Resource
leaves the store map literally unchanged, hence every get is unchanged;
PostsProcessor::process returns the empty sentinel for both template
paths (with no state change), and putting that sentinel leaves any store
unchanged. -/
theorem c5_empty_content_suppression :
    (∀ (m : StoreMap) (url : String) (r : Resource), r.contents = [] →
      storePut m url r = m) ∧
    (∀ (m : StoreMap) (url k : String) (r : Resource), r.contents = [] →
      mapGet (storePut m url r) k = mapGet m k) ∧
    (∀ (cfg : PostsCfg) (p : Path) (s : List PostItem),
      p = cfg.postsTemplatePath ∨ p = cfg.postListTemplatePath →
      postsProcess cfg p s =
        .ok ({ original_path := p, url_path := .UseOriginalPath, contents := [] }, s)) ∧
    (∀ (cfg : PostsCfg) (p : Path) (s : List PostItem) (r : Resource)
      (s' : List PostItem) (m : StoreMap) (url : String),
      p = cfg.postsTemplatePath ∨ p = cfg.postListTemplatePath →
      postsProcess cfg p s = .ok (r, s') → storePut m url r = m) := by
  have hput : ∀ (m : StoreMap) (url : String) (r : Resource), r.contents = [] →
      storePut m url r = m := by
    intro m url r h
    simp [storePut, h]
  have hproc : ∀ (cfg : PostsCfg) (p : Path) (s : List PostItem),
      p = cfg.postsTemplatePath ∨ p = cfg.postListTemplatePath →
      postsProcess cfg p s =
        .ok ({ original_path := p, url_path := .UseOriginalPath, contents := [] }, s) := by
    intro cfg p s h
    rcases h with h | h <;> simp [postsProcess, h]
  refine ⟨hput, ?_, hproc, ?_⟩
  · intro m url k r h
    rw [hput m url r h]
  · intro cfg p s r s' m url h hp
    rw [hproc cfg p s h] at hp
    have hr : r = { original_path := p, url_path := .UseOriginalPath, contents := [] } := by
      cases hp
      rfl
    rw [hr]
    exact hput m url _ rfl

/-- A concrete PostsProcessor configuration: the paths main.rs wires up
under root /site, with trivial collaborators. -/
def cfgW : PostsCfg where
  postsDir := ["site", "posts"]
  postsTemplatePath := ["site", "post.liquid"]
  postListTemplatePath := ["site", "post_list.liquid"]
  readToString := fun _ => .error "fs unavailable"
  mdToHtml := fun s => s
  parseMeta := fun _ => .error "no metadata"
  renderPost := fun _ _ => .error "no template"
  highlightCode := fun s => .ok s
  renderList := fun _ _ _ => .ok [49]

/-- A nonempty resource used to populate concrete stores. -/
def resW : Resource := ⟨["site", "a.css"], .UseOriginalPath, [97]⟩

/-- Witness for C5: at the concrete configuration, processing the
post-list template path yields the empty sentinel and putting it into a
nonempty store changes nothing. -/
theorem c5_empty_content_suppression_witness :
    storePut [("a.css", resW)] "u"
      { original_path := ["site", "post_list.liquid"], url_path := .UseOriginalPath,
        contents := [] } = [("a.css", resW)] ∧
    mapGet (storePut [("a.css", resW)] "u"
      { original_path := ["site", "post_list.liquid"], url_path := .UseOriginalPath,
        contents := [] }) "a.css" = mapGet [("a.css", resW)] "a.css" ∧
    postsProcess cfgW ["site", "post_list.liquid"] [] =
      .ok ({ original_path := ["site", "post_list.liquid"], url_path := .UseOriginalPath,
             contents := [] }, []) :=
  ⟨c5_empty_content_suppression.1 [("a.css", resW)] "u" _ rfl,
   c5_empty_content_suppression.2.1 [("a.css", resW)] "u" "a.css" _ rfl,
   c5_empty_content_suppression.2.2.1 cfgW ["site", "post_list.liquid"] [] (Or.inr rfl)⟩

/-- C8: Store's derive(Clone) shares the one underlying locked map: the
clone is the same handle, a put through the clone is observed by every
get through the original handle, a replace through the clone (the
watcher's handle) is observed through the original (the HTTP-serving
handle), and symmetrically a put through the original is observed
through the clone. -/
theorem c8_store_clone_aliasing :
    (∀ s : Store, Store.clone s = s) ∧
    (∀ (h : Heap) (s : Store) (url k : String) (r : Resource),
      Store.hget (Store.hput h (Store.clone s) url r) s k =
        mapGet (storePut (h s.ref) url r) k) ∧
    (∀ (h : Heap) (s other : Store) (k : String),
      Store.hget (Store.hreplace h (Store.clone s) other) s k = mapGet (h other.ref) k) ∧
    (∀ (h : Heap) (s : Store) (url k : String) (r : Resource),
      Store.hget (Store.hput h s url r) (Store.clone s) k =
        mapGet (storePut (h s.ref) url r) k) := by
  refine ⟨fun s => rfl, ?_, ?_, ?_⟩
  · intro h s url k r
    simp [Store.hget, Store.hput, Store.clone, heapWrite]
  · intro h s other k
    simp [Store.hget, Store.hreplace, Store.clone]
  · intro h s url k r
    simp [Store.hget, Store.hput, Store.clone, heapWrite]

/-- C9: PostsProcessor::flush drains the accumulated posts (mem::take):
whenever flush succeeds the state it leaves behind is empty, and a
flush from the empty state returns no resources, so a second flush with
no intervening process returns nothing. -/
theorem c9_flush_drains (cfg : PostsCfg) (st : List PostItem) (rs : List Resource)
    (st' : List PostItem) (h : postsFlush cfg st = .ok (rs, st')) :
    st' = [] ∧ postsFlush cfg [] = .ok ([], []) ∧ postsFlush cfg st' = .ok ([], []) := by
  have hempty : postsFlush cfg [] = .ok ([], []) := rfl
  have hst : st' = [] := by
    simp only [postsFlush] at h
    rcases hr : renderAll cfg (chunksOf 10 (sortPosts st)).length 0
        (chunksOf 10 (sortPosts st)) with e | rs₀
    · rw [hr] at h
      cases h
    · rw [hr] at h
      cases h
      rfl
  subst hst
  exact ⟨rfl, hempty, hempty⟩

/-- A concrete accumulated post. -/
def postW : PostItem := ⟨"p1.html", "Title", "Desc", "2024-01-01"⟩

/-- Witness for C9: a concrete flush of one accumulated post empties the
state, and reflushing yields no resources. -/
theorem c9_flush_drains_witness :
    ([] : List PostItem) = [] ∧ postsFlush cfgW [] = .ok ([], []) ∧
      postsFlush cfgW [] = .ok ([], []) :=
  c9_flush_drains cfgW [postW]
    [{ original_path := ["site", "post_list.liquid"], url_path := .Absolute "posts/index.html",
       contents := [49] }] [] rfl

/-- The effect of the dispatch loop once a processor has matched:
process, resolve the URL, put into the build store (emitting the one
process event for processor index i). -/
def applyProcAt {σ : Type} (base p : Path) (store : StoreMap) (s : σ) (pr : Processor σ)
    (i : Nat) : (Except String (StoreMap × σ)) × List BuildEvent :=
  match pr.process p s with
  | .error e => (.error e, [.procCall i p])
  | .ok (res, s') =>
    match res.url base with
    | .error e => (.error e, [.procCall i p])
    | .ok url => (.ok (storePut store url res, s'), [.procCall i p])

theorem dispatchPathTr_skip {σ : Type} (base p : Path) (store : StoreMap) (s : σ)
    (pre : List (Processor σ)) (hpre : ∀ q ∈ pre, q.matchesFn p = false)
    (rest : List (Processor σ)) (i : Nat) :
    dispatchPathTr base p store s (pre ++ rest) i =
      dispatchPathTr base p store s rest (i + pre.length) := by
  induction pre generalizing i with
  | nil => simp
  | cons q pre' ih =>
    have hq : q.matchesFn p = false := hpre q (List.mem_cons_self q pre')
    have hpre' : ∀ r ∈ pre', r.matchesFn p = false :=
      fun r hr => hpre r (List.mem_cons_of_mem q hr)
    have h1 : dispatchPathTr base p store s ((q :: pre') ++ rest) i =
        dispatchPathTr base p store s (pre' ++ rest) (i + 1) := by
      simp [dispatchPathTr, hq]
    have h2 : i + (q :: pre').length = (i + 1) + pre'.length := by
      simp only [List.length_cons]
      omega
    rw [h1, ih hpre' (i + 1), h2]

theorem applyProcAt_trace {σ : Type} (base p : Path) (store : StoreMap) (s : σ)
    (pr : Processor σ) (i : Nat) : (applyProcAt base p store s pr i).2 = [.procCall i p] := by
  unfold applyProcAt
  rcases hpr : pr.process p s with e | ⟨res, s'⟩
  · rfl
  · dsimp only
    rcases hu : res.url base with e | url <;> simp [hu]

/-- C1: first-match-wins dispatch.  If the processor sequence splits as
pre ++ pr :: post where nothing in pre matches the path and pr does,
then dispatching the path is exactly pr's process/url/put (at index
|pre|, the earliest match), the trace holds exactly that one process
event (so no later process runs), and the outcome is unchanged under
replacing the successors post by any other successor list (so
processors after the first hit are never consulted at all). -/
theorem c1_first_match_wins {σ : Type} (base p : Path) (store : StoreMap) (s : σ)
    (pre post : List (Processor σ)) (pr : Processor σ) (i : Nat)
    (hpre : ∀ q ∈ pre, q.matchesFn p = false) (hpr : pr.matchesFn p = true) :
    dispatchPathTr base p store s (pre ++ pr :: post) i =
      applyProcAt base p store s pr (i + pre.length) ∧
    (dispatchPathTr base p store s (pre ++ pr :: post) i).2 =
      [.procCall (i + pre.length) p] ∧
    ∀ post', dispatchPathTr base p store s (pre ++ pr :: post') i =
      dispatchPathTr base p store s (pre ++ pr :: post) i := by
  have key : ∀ post', dispatchPathTr base p store s (pre ++ pr :: post') i =
      applyProcAt base p store s pr (i + pre.length) := by
    intro post'
    rw [dispatchPathTr_skip base p store s pre hpre (pr :: post') i]
    simp only [dispatchPathTr, hpr, if_true, applyProcAt]
  refine ⟨key post, ?_, fun post' => (key post').trans (key post).symm⟩
  rw [key post]
  exact applyProcAt_trace base p store s pr (i + pre.length)

/-- Two toy processors over state Nat that both match everything, with
distinguishable outputs: used to witness first-match-wins. -/
def procA : Processor Nat where
  matchesFn := fun _ => true
  process := fun p s => .ok (⟨p, .UseOriginalPath, [1]⟩, s + 1)
  flush := fun s => .ok ([], s)

/-- Second toy processor (registered after procA); its output bytes
differ from procA's. -/
def procB : Processor Nat where
  matchesFn := fun _ => true
  process := fun p s => .ok (⟨p, .UseOriginalPath, [2]⟩, s)
  flush := fun s => .ok ([], s)

/-- Witness for C1: with procA registered before procB and both
matching "x.css", the dispatch outcome is procA's process/put, the lone
process event is procA's, and removing procB does not change the
outcome; concretely the stored resource carries procA's bytes. -/
theorem c1_first_match_wins_witness :
    dispatchPathTr ([] : Path) ["x.css"] ([] : StoreMap) (0 : Nat) [procA, procB] 0 =
      applyProcAt [] ["x.css"] [] 0 procA 0 ∧
    (dispatchPathTr ([] : Path) ["x.css"] ([] : StoreMap) (0 : Nat) [procA, procB] 0).2 =
      [.procCall 0 ["x.css"]] ∧
    dispatchPathTr ([] : Path) ["x.css"] ([] : StoreMap) (0 : Nat) [procA] 0 =
      dispatchPathTr ([] : Path) ["x.css"] ([] : StoreMap) (0 : Nat) [procA, procB] 0 ∧
    (dispatchPathTr ([] : Path) ["x.css"] ([] : StoreMap) (0 : Nat) [procA, procB] 0).1 =
      .ok ([("x.css", ⟨["x.css"], .UseOriginalPath, [1]⟩)], 1) := by
  have h := c1_first_match_wins ([] : Path) ["x.css"] ([] : StoreMap) (0 : Nat)
    [] [procB] procA 0 (by simp) rfl
  exact ⟨h.1, h.2.1, h.2.2 [], by rfl⟩

/-- C10: the recognized-extension gap.  For a file whose extension is
png, svg or webp: the walker keeps it (all three are in EXTENSIONS), yet
the extension is not in STATIC_EXTENSIONS so StaticProcessor does not
match, LiquidProcessor does not match (not .liquid), and PostsProcessor
does not match (the configured template paths are .liquid files as in
main.rs, and the extension is not .md/.markdown), so dispatch through
the full main.rs processor sequence silently skips the path: the build
store gains no entry and no process call happens. -/
theorem c10_extension_gap (pc : PostsCfg) (lc : LiquidCfg)
    (readFile : Path → Except String Bytes) (p : Path) (e : String) (base : Path)
    (store : StoreMap) (s : List PostItem) (i : Nat)
    (hext : pathExt p = some e) (he : e = "png" ∨ e = "svg" ∨ e = "webp")
    (ht1 : pathExt pc.postsTemplatePath = some "liquid")
    (ht2 : pathExt pc.postListTemplatePath = some "liquid") :
    e ∈ EXTENSIONS ∧ walkKeep p = true ∧ e ∉ STATIC_EXTENSIONS ∧
    staticMatches p = false ∧ liquidMatches lc p = false ∧ postsMatches pc p = false ∧
    dispatchPathTr base p store s (mainProcessors pc lc readFile) i = (.ok (store, s), []) := by
  have hmem : e ∈ EXTENSIONS := by rcases he with rfl | rfl | rfl <;> decide
  have hwalk : walkKeep p = true := by
    simp only [walkKeep, hext]
    rcases he with rfl | rfl | rfl <;> decide
  have hnm : e ∉ STATIC_EXTENSIONS := by rcases he with rfl | rfl | rfl <;> decide
  have hstatic : staticMatches p = false := by
    simp only [staticMatches, hext]
    rcases he with rfl | rfl | rfl <;> decide
  have hl1 : (Option.map (fun x => x == "liquid") (some e)).getD false = false := by
    rcases he with rfl | rfl | rfl <;> decide
  have hliquid : liquidMatches lc p = false := by
    simp only [liquidMatches, hext, hl1, Bool.false_and]
  have hne1 : (p == pc.postsTemplatePath) = false := by
    rw [beq_eq_false_iff_ne]
    intro hp
    rw [hp, ht1] at hext
    rcases he with rfl | rfl | rfl <;> simp at hext
  have hne2 : (p == pc.postListTemplatePath) = false := by
    rw [beq_eq_false_iff_ne]
    intro hp
    rw [hp, ht2] at hext
    rcases he with rfl | rfl | rfl <;> simp at hext
  have hm1 : (Option.map (fun x => x == "md" || x == "markdown") (some e)).getD false
      = false := by
    rcases he with rfl | rfl | rfl <;> decide
  have hposts : postsMatches pc p = false := by
    simp only [postsMatches, hne1, hne2, hext, hm1, Bool.and_false, Bool.or_false,
      Bool.false_or]
  refine ⟨hmem, hwalk, hnm, hstatic, hliquid, hposts, ?_⟩
  simp [mainProcessors, dispatchPathTr, postsProcessor, liquidProcessor,
    staticProcessor, hposts, hliquid, hstatic]

/-- A concrete LiquidProcessor configuration matching main.rs (partials
directory under the root). -/
def lcfgW : LiquidCfg where
  partsDir := ["site", "partials"]
  render := fun _ => .error "no template engine"

/-- Concrete file reader for witnesses. -/
def readFileW : Path → Except String Bytes := fun _ => .ok [120]

/-- Witness for C10 at /site/img/x.png with the main.rs configuration:
walked but matched by nothing, dispatch leaves store and state
untouched. -/
theorem c10_extension_gap_witness :
    "png" ∈ EXTENSIONS ∧ walkKeep ["site", "img", "x.png"] = true ∧
    "png" ∉ STATIC_EXTENSIONS ∧
    staticMatches ["site", "img", "x.png"] = false ∧
    liquidMatches lcfgW ["site", "img", "x.png"] = false ∧
    postsMatches cfgW ["site", "img", "x.png"] = false ∧
    dispatchPathTr ["site"] ["site", "img", "x.png"] [("k", resW)] [postW]
      (mainProcessors cfgW lcfgW readFileW) 0 = (.ok ([("k", resW)], [postW]), []) :=
  c10_extension_gap cfgW lcfgW readFileW ["site", "img", "x.png"] "png" ["site"]
    [("k", resW)] [postW] 0 rfl (Or.inl rfl) rfl rfl

/-- A processor that matches everything and always fails: used to inject
a build failure. -/
def procFail : Processor Nat where
  matchesFn := fun _ => true
  process := fun _ _ => .error "boom"
  flush := fun s => .ok ([], s)

/-- An all-empty heap of store allocations. -/
def heap0 : Heap := fun _ => []

/-- Counterexample for C3 as stated: on a failing rebuild the watcher
callback does not log-and-continue — src/main.rs line 108 calls
rebuild(..).expect("rebuild did not work"), so the callback panics (the
heap, i.e. the live store contents, is indeed left untouched). -/
theorem c3_rebuild_isolation_counterexample :
    (debounceCallback ([] : Path) [procFail] (.ok [["a.css"]]) (0 : Nat) heap0 ⟨0⟩ 1).1 =
      .panicked "rebuild did not work" ∧
    isLoggedOutcome
      (debounceCallback ([] : Path) [procFail] (.ok [["a.css"]]) (0 : Nat) heap0 ⟨0⟩ 1).1 =
      false ∧
    (debounceCallback ([] : Path) [procFail] (.ok [["a.css"]]) (0 : Nat) heap0 ⟨0⟩ 1).2 =
      heap0 := ⟨rfl, rfl, rfl⟩

/-- C3 (amended): when the rebuild's build pass fails the live heap —
and hence the live Store's contents — is left byte-identical and replace
is never invoked, but the callback panics with "rebuild did not work"
rather than logging and continuing; replace runs exactly on a
successful build. -/
theorem c3_rebuild_isolation {σ : Type} (base : Path) (procs : List (Processor σ))
    (walkRes : Except String (List Path)) (s : σ) (h : Heap) (live : Store)
    (freshRef : Nat) :
    (∀ e : String, (findAndProcessTr base procs walkRes s).1 = .error e →
      debounceCallback base procs walkRes s h live freshRef =
        (.panicked "rebuild did not work", h)) ∧
    (∀ out : StoreMap × σ, (findAndProcessTr base procs walkRes s).1 = .ok out →
      debounceCallback base procs walkRes s h live freshRef =
        (.replaced, Store.hreplace (heapWrite h freshRef out.1) live ⟨freshRef⟩)) := by
  constructor
  · intro e he
    simp [debounceCallback, rebuild, he]
  · intro out hout
    simp [debounceCallback, rebuild, hout]

/-- Witness for the amended C3: a failing build leaves the heap
untouched and panics; an empty (trivially successful) build replaces. -/
theorem c3_rebuild_isolation_witness :
    debounceCallback ([] : Path) [procFail] (.ok [["a.css"]]) (0 : Nat) heap0 ⟨0⟩ 1 =
      (.panicked "rebuild did not work", heap0) ∧
    debounceCallback ([] : Path) ([] : List (Processor Nat)) (.ok []) (0 : Nat) heap0 ⟨0⟩ 1 =
      (.replaced, Store.hreplace (heapWrite heap0 1 []) ⟨0⟩ ⟨1⟩) :=
  ⟨(c3_rebuild_isolation ([] : Path) [procFail] (.ok [["a.css"]]) (0 : Nat) heap0 ⟨0⟩ 1).1
      "boom" rfl,
   (c3_rebuild_isolation ([] : Path) ([] : List (Processor Nat)) (.ok []) (0 : Nat) heap0
      ⟨0⟩ 1).2 ([], 0) rfl⟩

theorem dispatchAllTr_append_ok {σ : Type} (base : Path) (procs : List (Processor σ)) :
    ∀ (l₁ l₂ : List Path) (store : StoreMap) (s : σ) (st₁ : StoreMap) (s₁ : σ)
      (tr₁ : List BuildEvent),
      dispatchAllTr base procs l₁ store s = (.ok (st₁, s₁), tr₁) →
      dispatchAllTr base procs (l₁ ++ l₂) store s =
        ((dispatchAllTr base procs l₂ st₁ s₁).1,
          tr₁ ++ (dispatchAllTr base procs l₂ st₁ s₁).2) := by
  intro l₁
  induction l₁ with
  | nil =>
    intro l₂ store s st₁ s₁ tr₁ h
    rw [show dispatchAllTr base procs [] store s = (.ok (store, s), []) from rfl] at h
    injection h with h₁ h₂
    injection h₁ with h₁
    injection h₁ with h₁ h₃
    subst h₁
    subst h₃
    subst h₂
    simp
  | cons p ps ih =>
    intro l₂ store s st₁ s₁ tr₁ h
    rcases hd : dispatchPathTr base p store s procs 0 with ⟨r, tr⟩
    cases r with
    | error e =>
      simp only [dispatchAllTr, hd] at h
      cases h
    | ok out =>
      rcases out with ⟨store', s'⟩
      simp only [dispatchAllTr, hd] at h
      rcases hd₂ : dispatchAllTr base procs ps store' s' with ⟨r₂, tr'⟩
      rw [hd₂] at h
      injection h with h₁ h₂
      subst h₁
      subst h₂
      rw [List.cons_append]
      simp only [dispatchAllTr, hd]
      rw [ih l₂ store' s' st₁ s₁ tr' hd₂]
      simp [List.append_assoc]

/-- C4: build atomicity on error.  (i) a walk failure is returned as the
build's error; (ii) if the dispatch of some walked path fails — its
process() or URL resolution returning an error — after an
ok prefix, find_and_process returns that error; (iii) if dispatch
succeeds but some flush() (or the URL resolution / put of a flushed
resource) fails, find_and_process returns that error — in all three
cases the Except carries no Store at all, so no partial Store reaches
the caller or the swap step; (iv) a path no processor matches leaves
store and state untouched and produces no error and no event. -/
theorem c4_build_atomicity :
    (∀ (σ : Type) (base : Path) (procs : List (Processor σ)) (e : String) (s : σ),
      (findAndProcessTr base procs (.error e) s).1 = .error e) ∧
    (∀ (σ : Type) (base : Path) (procs : List (Processor σ)) (l₁ : List Path) (p2 : Path)
      (l₂ : List Path) (s : σ) (st₁ : StoreMap) (s₁ : σ) (tr₁ : List BuildEvent)
      (e : String) (tr₂ : List BuildEvent),
      dispatchAllTr base procs l₁ [] s = (.ok (st₁, s₁), tr₁) →
      dispatchPathTr base p2 st₁ s₁ procs 0 = (.error e, tr₂) →
      (findAndProcessTr base procs (.ok (l₁ ++ p2 :: l₂)) s).1 = .error e) ∧
    (∀ (σ : Type) (base : Path) (procs : List (Processor σ)) (paths : List Path) (s : σ)
      (st : StoreMap) (s₁ : σ) (tr : List BuildEvent) (e : String)
      (tr' : List BuildEvent),
      dispatchAllTr base procs paths [] s = (.ok (st, s₁), tr) →
      flushAllTr base procs 0 st s₁ = (.error e, tr') →
      (findAndProcessTr base procs (.ok paths) s).1 = .error e) ∧
    (∀ (σ : Type) (base : Path) (procs : List (Processor σ)) (p : Path) (store : StoreMap)
      (s : σ) (i : Nat),
      (∀ pr ∈ procs, pr.matchesFn p = false) →
      dispatchPathTr base p store s procs i = (.ok (store, s), [])) := by
  refine ⟨fun σ base procs e s => rfl, ?_, ?_, ?_⟩
  · intro σ base procs l₁ p2 l₂ s st₁ s₁ tr₁ e tr₂ hpre hfail
    have hcons : dispatchAllTr base procs (p2 :: l₂) st₁ s₁ = (.error e, tr₂) := by
      simp only [dispatchAllTr, hfail]
    have happ := dispatchAllTr_append_ok base procs l₁ (p2 :: l₂) [] s st₁ s₁ tr₁ hpre
    rw [hcons] at happ
    simp only [findAndProcessTr, happ]
  · intro σ base procs paths s st s₁ tr e tr' hdisp hflush
    simp only [findAndProcessTr, hdisp, hflush]
  · intro σ base procs p store s i hnone
    induction procs generalizing i with
    | nil => rfl
    | cons pr rest ih =>
      have hm : pr.matchesFn p = false := hnone pr (List.mem_cons_self pr rest)
      have hrest : ∀ q ∈ rest, q.matchesFn p = false :=
        fun q hq => hnone q (List.mem_cons_of_mem pr hq)
      simp only [dispatchPathTr, hm, Bool.false_eq_true, if_false]
      exact ih (i + 1) hrest

/-- A processor that never matches. -/
def procNone : Processor Nat where
  matchesFn := fun _ => false
  process := fun _ _ => .error "unreachable"
  flush := fun s => .ok ([], s)

/-- A processor whose flush fails. -/
def procFlushFail : Processor Nat where
  matchesFn := fun _ => false
  process := fun _ _ => .error "unreachable"
  flush := fun _ => .error "flush boom"

/-- Witness for C4, at concrete failing builds: a walk error is
returned; a failing process() aborts the build with its error; a failing
flush() aborts the build with its error; an unmatched path is skipped
silently. -/
theorem c4_build_atomicity_witness :
    (findAndProcessTr ([] : Path) [procA] (.error "walk failed") (0 : Nat)).1 =
      .error "walk failed" ∧
    (findAndProcessTr ([] : Path) [procFail] (.ok [["a.md"]]) (0 : Nat)).1 = .error "boom" ∧
    (findAndProcessTr ([] : Path) [procFlushFail] (.ok []) (0 : Nat)).1 =
      .error "flush boom" ∧
    dispatchPathTr ([] : Path) ["a.png"] [("k", resW)] (7 : Nat) [procNone] 0 =
      (.ok ([("k", resW)], 7), []) :=
  ⟨c4_build_atomicity.1 Nat [] [procA] "walk failed" 0,
   c4_build_atomicity.2.1 Nat [] [procFail] [] ["a.md"] [] 0 [] 0 [] "boom"
     [.procCall 0 ["a.md"]] rfl rfl,
   c4_build_atomicity.2.2.1 Nat [] [procFlushFail] [] 0 [] 0 [] "flush boom"
     [.flushCall 0] rfl rfl,
   c4_build_atomicity.2.2.2 Nat [] [procNone] ["a.png"] [("k", resW)] 7 0
     (by intro pr hpr; rw [List.mem_singleton] at hpr; subst hpr; rfl)⟩

theorem dispatchPathTr_events {σ : Type} (base p : Path) (store : StoreMap) (s : σ) :
    ∀ (procs : List (Processor σ)) (i : Nat) (ev : BuildEvent),
      ev ∈ (dispatchPathTr base p store s procs i).2 → ev.isProc = true := by
  intro procs
  induction procs with
  | nil =>
    intro i ev hev
    simp [dispatchPathTr] at hev
  | cons pr rest ih =>
    intro i ev hev
    by_cases hm : pr.matchesFn p = true
    · simp only [dispatchPathTr, hm, if_true] at hev
      rcases hp : pr.process p s with e | ⟨res, s'⟩
      · rw [hp] at hev
        simp at hev
        subst hev
        rfl
      · rw [hp] at hev
        dsimp only at hev
        rcases hu : res.url base with e | url
        · rw [hu] at hev
          simp at hev
          subst hev
          rfl
        · rw [hu] at hev
          simp at hev
          subst hev
          rfl
    · have hm' : pr.matchesFn p = false := by
        cases hmm : pr.matchesFn p
        · rfl
        · exact absurd hmm hm
      simp only [dispatchPathTr, hm', Bool.false_eq_true, if_false] at hev
      exact ih (i + 1) ev hev

theorem dispatchAllTr_events {σ : Type} (base : Path) (procs : List (Processor σ)) :
    ∀ (ps : List Path) (store : StoreMap) (s : σ) (ev : BuildEvent),
      ev ∈ (dispatchAllTr base procs ps store s).2 → ev.isProc = true := by
  intro ps
  induction ps with
  | nil =>
    intro store s ev hev
    simp [dispatchAllTr] at hev
  | cons p ps' ih =>
    intro store s ev hev
    rcases hd : dispatchPathTr base p store s procs 0 with ⟨r, tr⟩
    cases r with
    | error e =>
      simp only [dispatchAllTr, hd] at hev
      exact dispatchPathTr_events base p store s procs 0 ev (by rw [hd]; exact hev)
    | ok out =>
      rcases out with ⟨store', s'⟩
      simp only [dispatchAllTr, hd] at hev
      rcases hd₂ : dispatchAllTr base procs ps' store' s' with ⟨r₂, tr'⟩
      rw [hd₂] at hev
      dsimp only at hev
      rw [List.mem_append] at hev
      rcases hev with hev | hev
      · exact dispatchPathTr_events base p store s procs 0 ev (by rw [hd]; exact hev)
      · exact ih store' s' ev (by rw [hd₂]; exact hev)

theorem flushAllTr_ok_trace {σ : Type} (base : Path) :
    ∀ (procs : List (Processor σ)) (i : Nat) (store : StoreMap) (s : σ)
      (out : StoreMap × σ) (tr : List BuildEvent),
      flushAllTr base procs i store s = (.ok out, tr) →
      tr = (List.range' i procs.length).map BuildEvent.flushCall := by
  intro procs
  induction procs with
  | nil =>
    intro i store s out tr h
    injection h with h₁ h₂
    subst h₂
    rfl
  | cons pr rest ih =>
    intro i store s out tr h
    rcases hf : pr.flush s with e | ⟨resources, s'⟩
    · simp only [flushAllTr, hf] at h
      cases h
    · simp only [flushAllTr, hf] at h
      rcases hp : putAll base store resources with e | store'
      · rw [hp] at h
        cases h
      · rw [hp] at h
        dsimp only at h
        rcases hrest : flushAllTr base rest (i + 1) store' s' with ⟨r₂, tr₂⟩
        rw [hrest] at h
        injection h with h₁ h₂
        subst h₁
        subst h₂
        rw [ih (i + 1) store' s' out tr₂ hrest]
        rfl

theorem findAndProcessTr_ok_decomp {σ : Type} (base : Path) (procs : List (Processor σ))
    (paths : List Path) (s : σ) (out : StoreMap × σ) (tr : List BuildEvent)
    (h : findAndProcessTr base procs (.ok paths) s = (.ok out, tr)) :
    ∃ mid dtr, dispatchAllTr base procs paths [] s = (.ok mid, dtr) ∧
      flushAllTr base procs 0 mid.1 mid.2 =
        (.ok out, (List.range procs.length).map BuildEvent.flushCall) ∧
      tr = dtr ++ (List.range procs.length).map BuildEvent.flushCall := by
  rcases hd : dispatchAllTr base procs paths [] s with ⟨r, dtr⟩
  cases r with
  | error e =>
    simp only [findAndProcessTr, hd] at h
    cases h
  | ok mid =>
    rcases mid with ⟨st, s'⟩
    simp only [findAndProcessTr, hd] at h
    rcases hf : flushAllTr base procs 0 st s' with ⟨r₂, ftr⟩
    rw [hf] at h
    dsimp only at h
    injection h with h₁ h₂
    subst h₁
    subst h₂
    have htr := flushAllTr_ok_trace base procs 0 st s' out ftr hf
    rw [List.range_eq_range']
    refine ⟨(st, s'), dtr, rfl, ?_, by rw [htr]⟩
    dsimp only
    rw [hf, htr]

/-- The accumulation discipline of PostsProcessor-style processors: a
successful process() call on a path appends exactly that path's record
to the shared state (here the state is the list of processed paths). -/
def Accumulating (procs : List (Processor (List Path))) : Prop :=
  ∀ pr ∈ procs, ∀ (q : Path) (st : List Path) (res : Resource) (st' : List Path),
    pr.process q st = .ok (res, st') → st' = st ++ [q]

theorem dispatchPathTr_state (base p : Path) (store : StoreMap) :
    ∀ (procs : List (Processor (List Path)))
      (hacc : ∀ pr ∈ procs, ∀ (q : Path) (st : List Path) (res : Resource)
        (st' : List Path), pr.process q st = .ok (res, st') → st' = st ++ [q])
      (s : List Path) (i : Nat) (st' : StoreMap) (s' : List Path),
      (dispatchPathTr base p store s procs i).1 = .ok (st', s') →
      (procs.any (fun q => q.matchesFn p) = true → s' = s ++ [p]) ∧
      (procs.any (fun q => q.matchesFn p) = false → s' = s ∧ st' = store) := by
  intro procs
  induction procs with
  | nil =>
    intro _hacc s i st' s' h
    injection h with h₁
    injection h₁ with h₁ h₂
    subst h₁
    subst h₂
    exact ⟨by intro habs; simp at habs, fun _ => ⟨rfl, rfl⟩⟩
  | cons pr rest ih =>
    intro hacc s i st' s' h
    by_cases hm : pr.matchesFn p = true
    · simp only [dispatchPathTr, hm, if_true] at h
      rcases hp : pr.process p s with e | ⟨res, s₂⟩
      · rw [hp] at h
        cases h
      · rw [hp] at h
        dsimp only at h
        rcases hu : res.url base with e | url
        · rw [hu] at h
          cases h
        · rw [hu] at h
          dsimp only at h
          injection h with h₁
          injection h₁ with h₁ h₂
          subst h₁
          subst h₂
          have hs₂ : s₂ = s ++ [p] := hacc pr (List.mem_cons_self pr rest) p s res s₂ hp
          constructor
          · intro _
            exact hs₂
          · intro habs
            rw [List.any_cons, hm] at habs
            simp at habs
    · have hm' : pr.matchesFn p = false := by
        cases hmm : pr.matchesFn p
        · rfl
        · exact absurd hmm hm
      simp only [dispatchPathTr, hm', Bool.false_eq_true, if_false] at h
      have hacc' : ∀ pr ∈ rest, ∀ (q : Path) (st : List Path) (res : Resource)
          (st' : List Path), pr.process q st = .ok (res, st') → st' = st ++ [q] :=
        fun q hq => hacc q (List.mem_cons_of_mem pr hq)
      have := ih hacc' s (i + 1) st' s' h
      rw [List.any_cons, hm']
      simpa using this

theorem dispatchAllTr_state (base : Path) (procs : List (Processor (List Path)))
    (hacc : Accumulating procs) :
    ∀ (ps : List Path) (store : StoreMap) (s : List Path) (st : StoreMap)
      (s₁ : List Path),
      (dispatchAllTr base procs ps store s).1 = .ok (st, s₁) →
      s₁ = s ++ ps.filter (fun p => procs.any (fun q => q.matchesFn p)) := by
  intro ps
  induction ps with
  | nil =>
    intro store s st s₁ h
    injection h with h₁
    injection h₁ with h₁ h₂
    subst h₂
    simp
  | cons p ps' ih =>
    intro store s st s₁ h
    rcases hd : dispatchPathTr base p store s procs 0 with ⟨r, tr⟩
    cases r with
    | error e =>
      simp only [dispatchAllTr, hd] at h
      cases h
    | ok out =>
      rcases out with ⟨store', s'⟩
      simp only [dispatchAllTr, hd] at h
      rcases hd₂ : dispatchAllTr base procs ps' store' s' with ⟨r₂, tr'⟩
      rw [hd₂] at h
      dsimp only at h
      have hrec : (dispatchAllTr base procs ps' store' s').1 = .ok (st, s₁) := by
        rw [hd₂, h]
      have hstep := dispatchPathTr_state base p store procs hacc s 0 store' s'
        (by rw [hd])
      have htail := ih store' s' st s₁ hrec
      by_cases hmp : procs.any (fun q => q.matchesFn p) = true
      · have hs' : s' = s ++ [p] := hstep.1 hmp
        rw [List.filter_cons_of_pos (by simpa using hmp)]
        rw [htail, hs']
        simp
      · have hmp' : procs.any (fun q => q.matchesFn p) = false := by
          cases hmm : procs.any (fun q => q.matchesFn p)
          · rfl
          · exact absurd hmm hmp
        have hs' : s' = s := (hstep.2 hmp').1
        rw [List.filter_cons_of_neg (by simpa using hmp')]
        rw [htail, hs']

/-- C2: flush-after-dispatch.  In every successful build the trace
splits as a dispatch part containing only process events followed by
exactly one flush event per processor in registration order (flush runs
exactly once per processor, sequentially, strictly after every
path's dispatch).  Consequently, for accumulating processors the state
flush starts from lists exactly the matched walked files — a
permutation-invariant of the dispatch order, never a proper subset. -/
theorem c2_flush_after_dispatch :
    (∀ (σ : Type) (base : Path) (procs : List (Processor σ)) (paths : List Path) (s : σ)
      (out : StoreMap × σ) (tr : List BuildEvent),
      findAndProcessTr base procs (.ok paths) s = (.ok out, tr) →
      ∃ mid dtr, dispatchAllTr base procs paths [] s = (.ok mid, dtr) ∧
        flushAllTr base procs 0 mid.1 mid.2 =
          (.ok out, (List.range procs.length).map BuildEvent.flushCall) ∧
        tr = dtr ++ (List.range procs.length).map BuildEvent.flushCall ∧
        ∀ ev ∈ dtr, ev.isProc = true) ∧
    (∀ (base : Path) (procs : List (Processor (List Path)))
      (walked interleaved : List Path) (s₀ : List Path) (st : StoreMap)
      (s₁ : List Path) (dtr : List BuildEvent),
      List.Perm interleaved walked → Accumulating procs →
      dispatchAllTr base procs interleaved [] s₀ = (.ok (st, s₁), dtr) →
      List.Perm s₁
        (s₀ ++ walked.filter (fun p => procs.any (fun q => q.matchesFn p)))) := by
  constructor
  · intro σ base procs paths s out tr h
    obtain ⟨mid, dtr, hd, hf, htr⟩ := findAndProcessTr_ok_decomp base procs paths s out tr h
    exact ⟨mid, dtr, hd, hf, htr,
      fun ev hev => dispatchAllTr_events base procs paths [] s ev (by rw [hd]; exact hev)⟩
  · intro base procs walked interleaved s₀ st s₁ dtr hperm hacc hd
    have hstate := dispatchAllTr_state base procs hacc interleaved [] s₀ st s₁ (by rw [hd])
    rw [hstate]
    exact List.Perm.append_left s₀
      (List.Perm.filter (fun p => procs.any (fun q => q.matchesFn p)) hperm)

/-- An accumulating processor that matches everything: its process
output records the path, its state appends the path. -/
def procAcc : Processor (List Path) where
  matchesFn := fun _ => true
  process := fun p s => .ok (⟨p, .Absolute "u", [1]⟩, s ++ [p])
  flush := fun s => .ok ([], s)

/-- Witness for C2: a concrete two-path build through the accumulating
processor, and the same two paths dispatched in the opposite order: the
trace decomposes with the flush event last, and the state reaching
flush is a permutation of both walked paths. -/
theorem c2_flush_after_dispatch_witness :
    (∃ mid dtr, dispatchAllTr ([] : Path) [procAcc] [["a"], ["b"]] [] [] = (.ok mid, dtr) ∧
      flushAllTr ([] : Path) [procAcc] 0 mid.1 mid.2 =
        (.ok ([("u", ⟨["b"], .Absolute "u", [1]⟩)], [["a"], ["b"]]),
          (List.range 1).map BuildEvent.flushCall) ∧
      ([BuildEvent.procCall 0 ["a"], .procCall 0 ["b"], .flushCall 0] : List BuildEvent) =
        dtr ++ (List.range 1).map BuildEvent.flushCall ∧
      ∀ ev ∈ dtr, ev.isProc = true) ∧
    List.Perm [["b"], ["a"]]
      (([] : List Path) ++
        List.filter (fun p => List.any [procAcc] (fun q => q.matchesFn p))
          [["a"], ["b"]]) := by
  constructor
  · have h := c2_flush_after_dispatch.1 (List Path) [] [procAcc] [["a"], ["b"]] []
      ([("u", ⟨["b"], .Absolute "u", [1]⟩)], [["a"], ["b"]])
      [.procCall 0 ["a"], .procCall 0 ["b"], .flushCall 0] rfl
    exact h
  · exact c2_flush_after_dispatch.2 [] [procAcc] [["a"], ["b"]] [["b"], ["a"]] []
      [("u", ⟨["a"], .Absolute "u", [1]⟩)] [["b"], ["a"]]
      [.procCall 0 ["b"], .procCall 0 ["a"]] (by decide)
      (by
        intro pr hpr q st res st' hp
        rw [List.mem_singleton] at hpr
        subst hpr
        simp only [procAcc] at hp
        injection hp with h₁
        injection h₁ with h₁ h₂
        exact h₂.symm)
      rfl

theorem chunksGo_join {α : Type} (n : Nat) :
    ∀ (fuel : Nat) (l : List α), l.length ≤ fuel → (chunksGo n fuel l).join = l := by
  intro fuel
  induction fuel with
  | zero =>
    intro l h
    cases l with
    | nil => rfl
    | cons a l' => simp at h
  | succ f ih =>
    intro l h
    cases l with
    | nil => rfl
    | cons a l' =>
      have hd : (l'.drop (n - 1)).length ≤ f := by
        rw [List.length_drop]
        simp only [List.length_cons] at h
        omega
      show (a :: List.take (n - 1) l') ++ (chunksGo n f (List.drop (n - 1) l')).join =
        a :: l'
      rw [ih (l'.drop (n - 1)) hd, List.cons_append, List.take_append_drop]

theorem chunksGo_mem_len {α : Type} (n : Nat) (hn : 1 ≤ n) :
    ∀ (fuel : Nat) (l : List α) (c : List α), c ∈ chunksGo n fuel l → c.length ≤ n := by
  intro fuel
  induction fuel with
  | zero =>
    intro l c hc
    cases l with
    | nil => simp [chunksGo] at hc
    | cons a l' => simp [chunksGo] at hc
  | succ f ih =>
    intro l c hc
    cases l with
    | nil => simp [chunksGo] at hc
    | cons a l' =>
      simp only [chunksGo, List.mem_cons] at hc
      rcases hc with rfl | hc
      · have := List.length_take_le (n - 1) l'
        simp only [List.length_cons]
        omega
      · exact ih (l'.drop (n - 1)) c hc

theorem chunksOf_join {α : Type} (n : Nat) (l : List α) : (chunksOf n l).join = l :=
  chunksGo_join n l.length l le_rfl

theorem chunksOf_mem_len {α : Type} (n : Nat) (hn : 1 ≤ n) (l : List α) :
    ∀ c ∈ chunksOf n l, c.length ≤ n :=
  fun c hc => chunksGo_mem_len n hn l.length l c hc

theorem renderPostList_ok (cfg : PostsCfg) (i : Nat) (last : Bool) (c : List PostItem)
    (r : Resource) (h : renderPostList cfg i last c = .ok r) :
    r.url_path = .Absolute
      (if i = 0 then "posts/index.html" else "posts/posts-" ++ toString i ++ ".html") ∧
    r.original_path = cfg.postListTemplatePath := by
  simp only [renderPostList] at h
  revert h
  cases cfg.renderList c
      (if i = 0 then "" else if i = 1 then "/posts/index.html"
        else "/posts/posts-" ++ toString (i - 1) ++ ".html")
      (if last then "" else "posts-" ++ toString (i + 1) ++ ".html") with
  | error e =>
    intro h
    cases h
  | ok buf =>
    intro h
    injection h with h₁
    subst h₁
    exact ⟨rfl, rfl⟩

theorem renderAll_ok (cfg : PostsCfg) (len : Nat) :
    ∀ (cs : List (List PostItem)) (i : Nat) (rs : List Resource),
      renderAll cfg len i cs = .ok rs →
      rs.length = cs.length ∧
      ∀ (j : Nat) (hj : j < rs.length), ∃ c, cs.get? j = some c ∧
        renderPostList cfg (i + j) ((i + j) == len - 1) c = .ok (rs.get ⟨j, hj⟩) := by
  intro cs
  induction cs with
  | nil =>
    intro i rs h
    injection h with h₁
    subst h₁
    refine ⟨rfl, ?_⟩
    intro j hj
    simp at hj
  | cons c cs' ih =>
    intro i rs h
    simp only [renderAll] at h
    rcases hr : renderPostList cfg i (i == len - 1) c with e | r
    · rw [hr] at h
      cases h
    · rw [hr] at h
      dsimp only at h
      rcases ha : renderAll cfg len (i + 1) cs' with e | rs'
      · rw [ha] at h
        cases h
      · rw [ha] at h
        dsimp only at h
        injection h with h₁
        subst h₁
        obtain ⟨hlen, hpt⟩ := ih (i + 1) rs' ha
        refine ⟨by simp [hlen], ?_⟩
        intro j hj
        cases j with
        | zero =>
          refine ⟨c, rfl, ?_⟩
          simpa using hr
        | succ j' =>
          have hj' : j' < rs'.length := by
            simp only [List.length_cons] at hj
            omega
          obtain ⟨c', hc', hrl⟩ := hpt j' hj'
          refine ⟨c', by simpa using hc', ?_⟩
          have hidx : i + (j' + 1) = (i + 1) + j' := by omega
          rw [hidx]
          exact hrl

/-- C7: post-list flush output.  On a successful flush of accumulated
posts: there is one page Resource per chunk of 10 of the sorted posts;
page 0 carries the Absolute URL "posts/index.html" and page i the
Absolute URL "posts/posts-i.html"; each page is the rendering of its
chunk; the chunks concatenate to the sorted list (consecutive pages of
at most 10), which is sorted descending by published and is a
permutation of the accumulated posts — so every accumulated post
appears on exactly one page. -/
theorem c7_post_list_flush (cfg : PostsCfg) (st : List PostItem) (rs : List Resource)
    (st' : List PostItem) (h : postsFlush cfg st = .ok (rs, st')) :
    rs.length = (chunksOf 10 (sortPosts st)).length ∧
    (∀ (j : Nat) (hj : j < rs.length), (rs.get ⟨j, hj⟩).url_path =
      .Absolute
        (if j = 0 then "posts/index.html" else "posts/posts-" ++ toString j ++ ".html")) ∧
    (∀ (j : Nat) (hj : j < rs.length), ∃ c,
      (chunksOf 10 (sortPosts st)).get? j = some c ∧
      renderPostList cfg j ((j : Nat) == (chunksOf 10 (sortPosts st)).length - 1) c =
        .ok (rs.get ⟨j, hj⟩)) ∧
    (chunksOf 10 (sortPosts st)).join = sortPosts st ∧
    List.Sorted postLe (sortPosts st) ∧
    (∀ c ∈ chunksOf 10 (sortPosts st), c.length ≤ 10) ∧
    List.Perm (sortPosts st) st := by
  have hra : renderAll cfg (chunksOf 10 (sortPosts st)).length 0
      (chunksOf 10 (sortPosts st)) = .ok rs := by
    simp only [postsFlush] at h
    revert h
    cases renderAll cfg (chunksOf 10 (sortPosts st)).length 0
        (chunksOf 10 (sortPosts st)) with
    | error e =>
      intro h
      cases h
    | ok rs₀ =>
      intro h
      injection h with h₁
      injection h₁ with h₁ h₂
      rw [h₁]
  obtain ⟨hlen, hpt⟩ := renderAll_ok cfg (chunksOf 10 (sortPosts st)).length
    (chunksOf 10 (sortPosts st)) 0 rs hra
  refine ⟨hlen, ?_, ?_, chunksOf_join 10 (sortPosts st),
    List.sorted_insertionSort postLe st,
    chunksOf_mem_len 10 (by omega) (sortPosts st),
    List.perm_insertionSort postLe st⟩
  · intro j hj
    obtain ⟨c, hc, hrl⟩ := hpt j hj
    have := renderPostList_ok cfg (0 + j) ((0 + j) == (chunksOf 10 (sortPosts st)).length - 1)
      c (rs.get ⟨j, hj⟩) hrl
    simpa using this.1
  · intro j hj
    obtain ⟨c, hc, hrl⟩ := hpt j hj
    exact ⟨c, hc, by simpa using hrl⟩

/-- A second concrete accumulated post, published later than postW. -/
def postW2 : PostItem := ⟨"p2.html", "Title2", "Desc2", "2024-02-01"⟩

/-- The page Resource the concrete flush produces. -/
def resFlushW : Resource :=
  ⟨["site", "post_list.liquid"], .Absolute "posts/index.html", [49]⟩

/-- Witness for C7: flushing two concrete posts yields one page at
posts/index.html rendered from the single chunk, sorted descending. -/
theorem c7_post_list_flush_witness :
    [resFlushW].length = (chunksOf 10 (sortPosts [postW, postW2])).length ∧
    (∀ (j : Nat) (hj : j < [resFlushW].length), ([resFlushW].get ⟨j, hj⟩).url_path =
      .Absolute
        (if j = 0 then "posts/index.html" else "posts/posts-" ++ toString j ++ ".html")) ∧
    (∀ (j : Nat) (hj : j < [resFlushW].length), ∃ c,
      (chunksOf 10 (sortPosts [postW, postW2])).get? j = some c ∧
      renderPostList cfgW j
          ((j : Nat) == (chunksOf 10 (sortPosts [postW, postW2])).length - 1) c =
        .ok ([resFlushW].get ⟨j, hj⟩)) ∧
    (chunksOf 10 (sortPosts [postW, postW2])).join = sortPosts [postW, postW2] ∧
    List.Sorted postLe (sortPosts [postW, postW2]) ∧
    (∀ c ∈ chunksOf 10 (sortPosts [postW, postW2]), c.length ≤ 10) ∧
    List.Perm (sortPosts [postW, postW2]) [postW, postW2] :=
  c7_post_list_flush cfgW [postW, postW2] [resFlushW] [] rfl

end Lumin
